import Mathlib

/-!
Verification of the `highperapp/compression` boundary layer
(`src/rust/src/lib.rs`): a C-ABI wrapper around an external streaming
Brotli codec.

Modelling conventions (shallow embedding):
* A byte buffer pointer together with its length is modelled as
  `Option (List Nat)`: `none` is a null pointer, `some bs` is the byte
  content of the region `[ptr, ptr+len)`.  Bytes are `Nat` values below 256.
* The out-parameter `*mut usize` slot is modelled by the `outLen` field of
  the result record: `none` means the call never wrote to the slot,
  `some k` means the call stored `k` there.
* `libc::malloc` may fail; the flag `allocOk` says whether the single
  allocation a call performs succeeds.  `codecCalled` / `allocCalled`
  record whether the external codec respectively the allocator were
  reached, so "no codec invocation, no allocation" claims are statable.
* The external Brotli codec is not code of this repository (the design
  treats it as a black box), so the boundary functions are parameterised
  by an abstract `Codec`; `compress_internal` / `decompress_internal`
  are the repository's thin wrappers over it.
* `f64` wall-clock durations are modelled as rationals; the elapsed time
  measured by `Instant::now`/`elapsed` enters `benchmark_compression`
  as an explicit nonnegative parameter.
-/

/-- The external streaming codec interface consumed by the boundary layer
(`brotli::CompressorReader` / `brotli::DecompressorReader`): compression is
configured by `{quality, lgwin}`, both directions can fail with an
I/O-style error (modelled as `Except Unit`). -/
structure Codec where
  comp : List Nat → Nat → Nat → Except Unit (List Nat)
  decomp : List Nat → Except Unit (List Nat)

/-- The repository's `compress_internal`: streams `input` through the codec's
compressor configured with the given quality and window size. -/
def compress_internal (c : Codec) (input : List Nat) (quality window_size : Nat) :
    Except Unit (List Nat) :=
  c.comp input quality window_size

/-- The repository's `decompress_internal`: streams `input` through the
codec's decompressor. -/
def decompress_internal (c : Codec) (input : List Nat) : Except Unit (List Nat) :=
  c.decomp input

/-- Result of a byte-buffer FFI call (`compress` / `decompress` /
`compress_string`): the returned pointer's content (`none` = null return),
what was written to the `*mut usize` out-length slot (`none` = untouched),
and whether the codec and the allocator were invoked. -/
structure FfiResult where
  ret : Option (List Nat)
  outLen : Option Nat
  codecCalled : Bool
  allocCalled : Bool
deriving DecidableEq, Repr

/-- The exported `compress` entry point (lib.rs lines 17-55): null-checks
`input_data` and `output_len`, clamps `quality` to `min(quality, 11)` and
`window_size` to `clamp(10, 24)`, runs `compress_internal`, then writes
`*output_len` and only afterwards calls `malloc` — so an allocation failure
returns null with the out-length slot already written. -/
def compress (c : Codec) (allocOk : Bool) (input_data : Option (List Nat))
    (quality window_size : Nat) (output_len_isNull : Bool) : FfiResult :=
  if input_data.isNone || output_len_isNull then
    ⟨none, none, false, false⟩
  else
    match compress_internal c (input_data.getD []) (min quality 11)
        (min (max window_size 10) 24) with
    | .ok compressed =>
        if allocOk then ⟨some compressed, some compressed.length, true, true⟩
        else ⟨none, some compressed.length, true, true⟩
    | .error _ => ⟨none, none, true, false⟩

/-- The exported `decompress` entry point (lib.rs lines 58-90): same
null-check, write-length-then-allocate shape as `compress`, with no
parameters to clamp. -/
def decompress (c : Codec) (allocOk : Bool) (input_data : Option (List Nat))
    (output_len_isNull : Bool) : FfiResult :=
  if input_data.isNone || output_len_isNull then
    ⟨none, none, false, false⟩
  else
    match decompress_internal c (input_data.getD []) with
    | .ok decompressed =>
        if allocOk then ⟨some decompressed, some decompressed.length, true, true⟩
        else ⟨none, some decompressed.length, true, true⟩
    | .error _ => ⟨none, none, true, false⟩

/-- Well-formed UTF-8, exactly as Rust's `str::from_utf8` validation accepts
it (RFC 3629: no bytes above `0xF4` as leads, no overlong forms, no
surrogates, continuations in `0x80..0xBF`). -/
def utf8Valid : List Nat → Bool
  | [] => true
  | b :: rest =>
    if b < 0x80 then utf8Valid rest
    else if b < 0xC2 then false
    else if b < 0xE0 then
      match rest with
      | b1 :: rest2 =>
        if 0x80 ≤ b1 && b1 < 0xC0 then utf8Valid rest2 else false
      | [] => false
    else if b < 0xF0 then
      match rest with
      | b1 :: b2 :: rest2 =>
        let lo := if b = 0xE0 then 0xA0 else 0x80
        let hi := if b = 0xED then 0xA0 else 0xC0
        if (lo ≤ b1 && b1 < hi) && (0x80 ≤ b2 && b2 < 0xC0) then utf8Valid rest2
        else false
      | _ => false
    else if b < 0xF5 then
      match rest with
      | b1 :: b2 :: b3 :: rest2 =>
        let lo := if b = 0xF0 then 0x90 else 0x80
        let hi := if b = 0xF4 then 0x90 else 0xC0
        if (lo ≤ b1 && b1 < hi) && (0x80 ≤ b2 && b2 < 0xC0) &&
            (0x80 ≤ b3 && b3 < 0xC0) then utf8Valid rest2
        else false
      | _ => false
    else false

/-- The exported `compress_string` entry point (lib.rs lines 93-117): the
argument is the memory behind the `*const c_char`; `CStr::from_ptr` scans to
the first null terminator, `to_str` then validates the scanned bytes as
UTF-8 (returning null on failure), and the result is handed to `compress`. -/
def compress_string (c : Codec) (allocOk : Bool) (input : Option (List Nat))
    (quality window_size : Nat) (output_len_isNull : Bool) : FfiResult :=
  if input.isNone || output_len_isNull then
    ⟨none, none, false, false⟩
  else
    let scanned := (input.getD []).takeWhile (· != 0)
    if utf8Valid scanned then
      compress c allocOk (some scanned) quality window_size output_len_isNull
    else ⟨none, none, false, false⟩

/-- Result of `decompress_to_string`: the returned owned C string's bytes
including its appended terminator (`none` = null return), plus codec and
allocator invocation flags. -/
structure StrResult where
  ret : Option (List Nat)
  codecCalled : Bool
  allocCalled : Bool
deriving DecidableEq, Repr

/-- The exported `decompress_to_string` entry point (lib.rs lines 120-144):
decompresses, validates the bytes as UTF-8 (`String::from_utf8`), then
`CString::new` fails if the text contains any interior null byte —
otherwise the null-terminated copy is returned. -/
def decompress_to_string (c : Codec) (input_data : Option (List Nat)) : StrResult :=
  match input_data with
  | none => ⟨none, false, false⟩
  | some bytes =>
    match decompress_internal c bytes with
    | .error _ => ⟨none, true, false⟩
    | .ok d =>
      if utf8Valid d then
        if d.contains 0 then ⟨none, true, true⟩
        else ⟨some (d ++ [0]), true, true⟩
      else ⟨none, true, false⟩

/-- The exported `get_recommended_quality` (lib.rs lines 147-155): quality by
size bracket. -/
def get_recommended_quality (input_size : Nat) : Nat :=
  if input_size ≤ 1024 then 4
  else if input_size ≤ 10240 then 6
  else if input_size ≤ 102400 then 8
  else 10

/-- The exported `estimate_compressed_size` (lib.rs lines 158-168).  The
source computes `((input_size as f64) * ratio) as usize` with ratio literals
`0.7`, `0.5`, `0.4`, `0.3`; here each literal is replaced by its exact
binary64 value (a dyadic rational) and the truncated product is computed
exactly with natural division — the final f64 rounding of the product is
below one unit and cannot move the truncation past `input_size`. -/
def estimate_compressed_size (input_size : Nat) (quality : Nat) : Nat :=
  if quality ≤ 3 then input_size * 3152519739159347 / 2 ^ 52
  else if quality ≤ 6 then input_size * 1 / 2
  else if quality ≤ 9 then input_size * 3602879701896397 / 2 ^ 53
  else input_size * 5404319552844595 / 2 ^ 54

/-- Result of `benchmark_compression`: the returned `f64` (as a rational) and
the list of per-iteration codec results, all of which the source discards
with `let _ = ...`. -/
structure BenchResult where
  val : ℚ
  runs : List (Except Unit (List Nat))

/-- The exported `benchmark_compression` (lib.rs lines 195-213): returns
`-1.0` if the input pointer is null or `iterations` is zero; otherwise runs
`compress_internal` with fixed quality 6 and window 22 once per iteration,
discarding every result, and returns elapsed wall-clock seconds divided by
the iteration count. -/
def benchmark_compression (c : Codec) (input_data : Option (List Nat))
    (iterations : Nat) (elapsed : ℚ) : BenchResult :=
  if input_data.isNone || iterations == 0 then ⟨-1, []⟩
  else
    ⟨elapsed / iterations,
     (List.range iterations).map (fun _ =>
       compress_internal c (input_data.getD []) 6 22)⟩

/-- Round-trip contract of the external codec on its accepted parameter
domain (the interface property of the black-box Brotli library): whatever
the compressor produces for in-range parameters, the decompressor restores. -/
def RoundTripCodec (c : Codec) : Prop :=
  ∀ b q w, q ≤ 11 → 10 ≤ w → w ≤ 24 →
    ∀ out, compress_internal c b q w = .ok out →
      decompress_internal c out = .ok b

/-- A trivially round-tripping codec, used to instantiate theorems with
codec hypotheses at concrete inputs. -/
def idCodec : Codec :=
  ⟨fun b _ _ => .ok b, fun b => .ok b⟩

/-- A codec whose every operation fails, used to exercise codec-failure
paths at concrete inputs. -/
def allFailCodec : Codec :=
  ⟨fun _ _ _ => .error (), fun _ => .error ()⟩

theorem idCodec_roundtrip : RoundTripCodec idCodec := by
  intro b q w _ _ _ out hout
  simpa [compress_internal, decompress_internal, idCodec] using hout.symm

/-- C6: `get_recommended_quality` returns 4 for sizes up to 1024, 6 up to
10240, 8 up to 102400, 10 beyond, and is non-decreasing in the size. -/
theorem get_recommended_quality_brackets_and_mono :
    (∀ n, n ≤ 1024 → get_recommended_quality n = 4) ∧
    (∀ n, 1024 < n → n ≤ 10240 → get_recommended_quality n = 6) ∧
    (∀ n, 10240 < n → n ≤ 102400 → get_recommended_quality n = 8) ∧
    (∀ n, 102400 < n → get_recommended_quality n = 10) ∧
    (∀ m n, m ≤ n → get_recommended_quality m ≤ get_recommended_quality n) := by
  refine ⟨?_, ?_, ?_, ?_, ?_⟩ <;> intro m <;> intros <;>
    simp only [get_recommended_quality] <;> split_ifs <;> omega

/-- C6 witness: the bracket equalities applied at the spec's sample sizes. -/
theorem get_recommended_quality_brackets_and_mono_sample :
    get_recommended_quality 500 = 4 ∧ get_recommended_quality 5000 = 6 ∧
    get_recommended_quality 50000 = 8 ∧ get_recommended_quality 500000 = 10 ∧
    get_recommended_quality 500 ≤ get_recommended_quality 500000 :=
  ⟨get_recommended_quality_brackets_and_mono.1 500 (by decide),
   get_recommended_quality_brackets_and_mono.2.1 5000 (by decide) (by decide),
   get_recommended_quality_brackets_and_mono.2.2.1 50000 (by decide) (by decide),
   get_recommended_quality_brackets_and_mono.2.2.2.1 500000 (by decide),
   get_recommended_quality_brackets_and_mono.2.2.2.2 500 500000 (by decide)⟩

/-- C7: the size estimate never exceeds the input size (all ratio constants
are below 1 and the product is truncated), and the spec's concrete scenario
`estimate_compressed_size 1000 6 = 500` holds. -/
theorem estimate_compressed_size_le_and_sample :
    (∀ n q, estimate_compressed_size n q ≤ n) ∧
    estimate_compressed_size 1000 6 = 500 := by
  constructor
  · intro n q
    have step : ∀ m k : Nat, m ≤ 2 ^ k → n * m / 2 ^ k ≤ n := by
      intro m k hm
      calc n * m / 2 ^ k ≤ n * 2 ^ k / 2 ^ k :=
            Nat.div_le_div_right (Nat.mul_le_mul_left n hm)
        _ = n := Nat.mul_div_cancel n (Nat.pos_pow_of_pos k (by norm_num))
    simp only [estimate_compressed_size]
    split
    · exact step 3152519739159347 52 (by norm_num)
    · split
      · exact step 1 1 (by norm_num)
      · split
        · exact step 3602879701896397 53 (by norm_num)
        · exact step 5404319552844595 54 (by norm_num)
  · decide

/-- Success test for a codec result (whether the `Result` was `Ok`). -/
def exceptOk {e a : Type} : Except e a → Bool
  | .ok _ => true
  | .error _ => false

/-- A codec whose decompressor always yields the ASCII bytes `A`, NUL, `B`:
valid UTF-8 text containing an interior null byte. -/
def nulTextCodec : Codec :=
  ⟨fun b _ _ => .ok b, fun _ => .ok [65, 0, 66]⟩

/-- C1: if the codec round-trips on its accepted parameter domain, then for
every byte sequence `b` and every quality and window size — in range or
clamped from out of range — `decompress` applied to the buffer returned by
`compress b q w` yields exactly `b`. -/
theorem compress_decompress_roundtrip (c : Codec) (hc : RoundTripCodec c)
    (b : List Nat) (q w : Nat) (out : List Nat)
    (h : (compress c true (some b) q w false).ret = some out) :
    (decompress c true (some out) false).ret = some b := by
  have hq : min q 11 ≤ 11 := Nat.min_le_right q 11
  have hw1 : (10 : Nat) ≤ min (max w 10) 24 := by omega
  have hw2 : min (max w 10) 24 ≤ (24 : Nat) := by omega
  cases hcomp : compress_internal c b (min q 11) (min (max w 10) 24) with
  | error e => simp [compress, hcomp] at h
  | ok compressed =>
      have hout : compressed = out := by simpa [compress, hcomp] using h
      have hdec := hc b (min q 11) (min (max w 10) 24) hq hw1 hw2 compressed hcomp
      subst hout
      simp [decompress, hdec]

/-- C1 witness: the round-trip theorem applied to a concrete byte sequence
(including a null byte) with out-of-range quality 255 and window size 1,
over a concretely round-tripping codec. -/
theorem compress_decompress_roundtrip_example :
    (decompress idCodec true (some [7, 0, 255]) false).ret = some [7, 0, 255] :=
  compress_decompress_roundtrip idCodec idCodec_roundtrip [7, 0, 255] 255 1
    [7, 0, 255] (by decide)

/-- C2 counterexample: when the codec succeeds but the boundary's own
allocation fails, `compress` returns null with the out-length slot already
written (the source stores `*output_len` before calling `malloc`), so a null
return does not imply the slot is untouched. -/
theorem compress_allocFail_writes_outLen :
    (compress idCodec false (some [1, 2, 3]) 6 22 false).ret = none ∧
    (compress idCodec false (some [1, 2, 3]) 6 22 false).outLen = some 3 := by
  decide

/-- C2 amended: the out-length slot is written exactly when both pointer
arguments are non-null and the codec succeeds — so null returns from null
arguments or codec failure write nothing, and every non-null return has the
slot written; but on allocation failure the slot has already been written
before the null return. -/
theorem outLen_written_iff_codec_ok (c : Codec) (a : Bool)
    (inp : Option (List Nat)) (q w : Nat) (onull : Bool) :
    ((compress c a inp q w onull).outLen.isSome = true ↔
      inp.isSome = true ∧ onull = false ∧
        exceptOk (compress_internal c (inp.getD []) (min q 11)
          (min (max w 10) 24)) = true) ∧
    ((compress c a inp q w onull).ret.isSome = true →
      (compress c a inp q w onull).outLen.isSome = true) ∧
    ((decompress c a inp onull).outLen.isSome = true ↔
      inp.isSome = true ∧ onull = false ∧
        exceptOk (decompress_internal c (inp.getD [])) = true) ∧
    ((decompress c a inp onull).ret.isSome = true →
      (decompress c a inp onull).outLen.isSome = true) := by
  refine ⟨?_, ?_, ?_, ?_⟩
  · cases inp with
    | none => simp [compress]
    | some b =>
      cases onull
      · cases hc : compress_internal c b (min q 11) (min (max w 10) 24) with
        | error e => simp [compress, hc, exceptOk]
        | ok v => cases a <;> simp [compress, hc, exceptOk]
      · simp [compress]
  · cases inp with
    | none => simp [compress]
    | some b =>
      cases onull
      · cases hc : compress_internal c b (min q 11) (min (max w 10) 24) with
        | error e => simp [compress, hc]
        | ok v => cases a <;> simp [compress, hc]
      · simp [compress]
  · cases inp with
    | none => simp [decompress]
    | some b =>
      cases onull
      · cases hd : decompress_internal c b with
        | error e => simp [decompress, hd, exceptOk]
        | ok v => cases a <;> simp [decompress, hd, exceptOk]
      · simp [decompress]
  · cases inp with
    | none => simp [decompress]
    | some b =>
      cases onull
      · cases hd : decompress_internal c b with
        | error e => simp [decompress, hd]
        | ok v => cases a <;> simp [decompress, hd]
      · simp [decompress]

/-- C2 amended witness: on a successful concrete call the out-length slot is
written, via the non-null-return clause of the amended theorem. -/
theorem outLen_written_iff_codec_ok_example :
    (compress idCodec true (some [1, 2]) 6 22 false).outLen.isSome = true :=
  (outLen_written_iff_codec_ok idCodec true (some [1, 2]) 6 22 false).2.1
    (by decide)

/-- C3 counterexample: on the byte content `0xFF` (not valid UTF-8) before
the terminator, `compress_string` returns null without delegating, while
`compress` on the same scanned bytes succeeds — the delegation claim fails
because `to_str` validates UTF-8 before handing over. -/
theorem compress_string_rejects_invalid_utf8 :
    compress_string idCodec true (some [255, 0]) 6 22 false ≠
      compress idCodec true (some [255]) 6 22 false := by
  decide

/-- C3 amended: for every null-terminated byte string whose bytes up to the
first null terminator are valid UTF-8, `compress_string` delegates to
`compress` on the scanned view and returns exactly its result; bytes that
fail UTF-8 validation yield a null return without invoking `compress`. -/
theorem compress_string_delegates_on_utf8 (c : Codec) (a : Bool)
    (mem : List Nat) (q w : Nat) (onull : Bool)
    (h : utf8Valid (mem.takeWhile (· != 0)) = true) :
    compress_string c a (some mem) q w onull =
      compress c a (some (mem.takeWhile (· != 0))) q w onull := by
  cases onull
  · simp [compress_string, h]
  · simp [compress_string, compress]

/-- C3 amended witness: the delegation theorem applied to the concrete
memory `hi\x00z`, whose scanned view is the ASCII text `hi`. -/
theorem compress_string_delegates_on_utf8_example :
    compress_string idCodec true (some [104, 105, 0, 122]) 3 15 false =
      compress idCodec true (some ([104, 105, 0, 122].takeWhile (· != 0)))
        3 15 false :=
  compress_string_delegates_on_utf8 idCodec true [104, 105, 0, 122] 3 15 false
    (by decide)

/-- C4: `compress` clamps quality to `min(quality, 11)` and window size to
`clamp(windowSize, 10, 24)` before use and never rejects out-of-range
values; in particular quality 255 behaves exactly like quality 11, and
window size 1 exactly like window size 10, on every input. -/
theorem compress_clamps_parameters :
    (∀ (c : Codec) (a : Bool) (inp : Option (List Nat)) (q w : Nat)
      (onull : Bool),
      compress c a inp q w onull =
        compress c a inp (min q 11) (min (max w 10) 24) onull) ∧
    (∀ (c : Codec) (a : Bool) (inp : Option (List Nat)) (w : Nat)
      (onull : Bool),
      compress c a inp 255 w onull = compress c a inp 11 w onull) ∧
    (∀ (c : Codec) (a : Bool) (inp : Option (List Nat)) (q : Nat)
      (onull : Bool),
      compress c a inp q 1 onull = compress c a inp q 10 onull) := by
  have key : ∀ (c : Codec) (a : Bool) (inp : Option (List Nat))
      (q w q2 w2 : Nat) (onull : Bool), min q 11 = min q2 11 →
      min (max w 10) 24 = min (max w2 10) 24 →
      compress c a inp q w onull = compress c a inp q2 w2 onull := by
    intro c a inp q w q2 w2 onull h1 h2
    simp only [compress, h1, h2]
  exact ⟨fun c a inp q w onull =>
      key c a inp q w (min q 11) (min (max w 10) 24) onull
        (by omega) (by omega),
    fun c a inp w onull => key c a inp 255 w 11 w onull (by omega) rfl,
    fun c a inp q onull => key c a inp q 1 q 10 onull rfl (by omega)⟩

/-- C5: every operation with a null required pointer returns its failure
sentinel immediately — null result for the four codec operations (with the
out-length slot untouched and neither the codec nor the allocator invoked,
for whichever required pointer is null), and `-1` with zero codec runs for
the benchmark. -/
theorem null_pointer_sentinel :
    (∀ (c : Codec) (a : Bool) (q w : Nat) (onull : Bool),
      compress c a none q w onull = ⟨none, none, false, false⟩) ∧
    (∀ (c : Codec) (a : Bool) (inp : Option (List Nat)) (q w : Nat),
      compress c a inp q w true = ⟨none, none, false, false⟩) ∧
    (∀ (c : Codec) (a : Bool) (onull : Bool),
      decompress c a none onull = ⟨none, none, false, false⟩) ∧
    (∀ (c : Codec) (a : Bool) (inp : Option (List Nat)),
      decompress c a inp true = ⟨none, none, false, false⟩) ∧
    (∀ (c : Codec) (a : Bool) (q w : Nat) (onull : Bool),
      compress_string c a none q w onull = ⟨none, none, false, false⟩) ∧
    (∀ (c : Codec) (a : Bool) (inp : Option (List Nat)) (q w : Nat),
      compress_string c a inp q w true = ⟨none, none, false, false⟩) ∧
    (∀ (c : Codec), decompress_to_string c none = ⟨none, false, false⟩) ∧
    (∀ (c : Codec) (iters : Nat) (e : ℚ),
      benchmark_compression c none iters e = ⟨-1, []⟩) := by
  refine ⟨?_, ?_, ?_, ?_, ?_, ?_, ?_, ?_⟩ <;> intros <;>
    simp [compress, decompress, compress_string, decompress_to_string,
      benchmark_compression]

/-- C8: `benchmark_compression` returns a negative value exactly when the
input pointer is null or the iteration count is zero; with a non-null input
and a nonzero count it returns the nonnegative elapsed-seconds-per-iteration
quotient. -/
theorem benchmark_negative_iff (c : Codec) (inp : Option (List Nat))
    (iters : Nat) (e : ℚ) (he : 0 ≤ e) :
    ((benchmark_compression c inp iters e).val < 0 ↔
      inp.isNone = true ∨ iters = 0) := by
  cases inp with
  | none => simp [benchmark_compression]
  | some b =>
    rcases Nat.eq_zero_or_pos iters with h0 | hpos
    · subst h0; simp [benchmark_compression]
    · have hne : iters ≠ 0 := Nat.pos_iff_ne_zero.mp hpos
      have hnn : (0 : ℚ) ≤ e / iters :=
        div_nonneg he (by positivity)
      simp [benchmark_compression, hne]
      linarith

/-- C8 witness: the sign characterization applied concretely to a non-null
one-byte input, two iterations and zero elapsed time, over the
always-failing codec. -/
theorem benchmark_negative_iff_example :
    ((benchmark_compression allFailCodec (some [1]) 2 0).val < 0 ↔
      (some [1] : Option (List Nat)).isNone = true ∨ 2 = 0) :=
  benchmark_negative_iff allFailCodec (some [1]) 2 0 (by norm_num)

/-- C9: when decompression succeeds and the decompressed bytes are valid
UTF-8 but contain a null byte, `decompress_to_string` still returns null —
`CString::new` rejects interior null bytes as a third failure mode. -/
theorem decompress_to_string_interior_null (c : Codec) (input d : List Nat)
    (h : decompress_internal c input = .ok d) (hu : utf8Valid d = true)
    (hn : d.contains 0 = true) :
    (decompress_to_string c (some input)).ret = none := by
  have hm : 0 ∈ d := by simpa using hn
  simp [decompress_to_string, h, hu, hm]

/-- C9 witness: the interior-null theorem applied to a codec that
decompresses to the valid UTF-8 bytes `A`, NUL, `B`. -/
theorem decompress_to_string_interior_null_example :
    (decompress_to_string nulTextCodec (some [9])).ret = none :=
  decompress_to_string_interior_null nulTextCodec [9] [65, 0, 66] rfl
    (by decide) (by decide)

/-- C10: `benchmark_compression` never reports codec failure — with a
non-null input and nonzero iteration count its value is nonnegative for
every codec, and coincides with the value obtained under a codec whose every
compression fails, because each iteration's result is discarded. -/
theorem benchmark_discards_codec_failures (c : Codec) (b : List Nat)
    (iters : Nat) (e : ℚ) (hi : iters ≠ 0) (he : 0 ≤ e) :
    0 ≤ (benchmark_compression c (some b) iters e).val ∧
    (benchmark_compression c (some b) iters e).val =
      (benchmark_compression allFailCodec (some b) iters e).val := by
  constructor
  · simp [benchmark_compression, hi]
    exact div_nonneg he (by positivity)
  · simp [benchmark_compression, hi]

/-- C10 witness: the discarding theorem applied concretely with the
always-failing codec, three iterations and one elapsed second. -/
theorem benchmark_discards_codec_failures_example :
    0 ≤ (benchmark_compression allFailCodec (some [42]) 3 1).val :=
  (benchmark_discards_codec_failures allFailCodec [42] 3 1 (by decide)
    (by norm_num)).1
